import Mathlib

/-
Verification of the prompt-library application (src/prompt_app.py) against its
specification.  Strings are embedded as `List Char`; the store is an
association list mirroring a Python dict (insertion-ordered, unique keys);
JSON documents are embedded as an inductive `JVal` tree.  All definitions are
translated from the Python source; definitions whose name ends in `Spec`
formalise the specification's wording instead, for refinement comparisons.
-/

/-- The character `\x7b` (left brace), written via its code point. -/
def lbrace : Char := Char.ofNat 123

/-- The character `\x7d` (right brace), written via its code point. -/
def rbrace : Char := Char.ofNat 125

/-! ### Placeholder extraction (src/prompt_app.py lines 534-540)

Python: `matches = re.findall(r'\x7b([^\x7d]+)\x7d', current_prompt)` followed by
`for placeholder in matches: placeholders[placeholder] = ...`, whose dict keys
keep the first occurrence of each name in order.  `scanPH` is a single-pass
scanner equivalent to the regex search: at a `\x7b` it starts collecting, any
character other than `\x7d` (including further `\x7b`) is collected, and at a
`\x7d` the collected name is emitted when nonempty; the regex `[^\x7d]+` never
matches an empty name, so `\x7b\x7d` emits nothing and scanning resumes after
the `\x7d`. -/

/-- Scanner state `none`: outside a candidate match; `some acc`: characters
collected since the opening brace.  Mirrors `re.findall` with the pattern of
line 535 (nonempty names only). -/
def scanPH : List Char → Option (List Char) → List (List Char)
  | [], _ => []
  | c :: cs, none => if c = lbrace then scanPH cs (some []) else scanPH cs none
  | c :: cs, some acc =>
    if c = rbrace then
      if acc = [] then scanPH cs none else acc :: scanPH cs none
    else
      scanPH cs (some (acc ++ [c]))

/-- Scanner following the specification's wording instead: a placeholder name is
the text enclosed between a `\x7b` and the next `\x7d`, used verbatim, so the
empty name is also emitted (definition from the spec, for comparison). -/
def scanPHSpec : List Char → Option (List Char) → List (List Char)
  | [], _ => []
  | c :: cs, none => if c = lbrace then scanPHSpec cs (some []) else scanPHSpec cs none
  | c :: cs, some acc =>
    if c = rbrace then
      acc :: scanPHSpec cs none
    else
      scanPHSpec cs (some (acc ++ [c]))

/-- First-occurrence deduplication, as performed by inserting the found names as
keys of the Python dict `placeholders` (line 540). -/
def dedupFirst (l : List (List Char)) : List (List Char) :=
  l.foldl (fun acc x => if x ∈ acc then acc else acc ++ [x]) []

/-- The distinct placeholder names of a template body, in order of first
appearance: the keys of the `placeholders` dict built on lines 538-540. -/
def extract_placeholders (body : List Char) : List (List Char) :=
  dedupFirst (scanPH body none)

/-- Placeholder extraction as the specification words it (empty names allowed);
used to compare the code against the claim. -/
def extractPlaceholdersSpec (body : List Char) : List (List Char) :=
  dedupFirst (scanPHSpec body none)

/-! ### Placeholder filling (src/prompt_app.py lines 543-550)

Python: `for placeholder, value in placeholders.items():
  filled_prompt = filled_prompt.replace("\x7b" + placeholder + "\x7d", value)`.
`replaceAll` is Python's `str.replace` (all non-overlapping occurrences, left
to right); it is written with an explicit fuel equal to the string length so
that it is structurally recursive and computable by `decide`. -/

/-- Fuel-indexed core of `str.replace`; fuel at least the length of the string
is always sufficient because each step consumes at least one character. -/
def replaceAllAux (pat val : List Char) : Nat → List Char → List Char
  | _, [] => []
  | 0, s => s
  | fuel + 1, c :: cs =>
    if List.isPrefixOf pat (c :: cs) then
      val ++ replaceAllAux pat val fuel (List.drop (pat.length - 1) cs)
    else
      c :: replaceAllAux pat val fuel cs

/-- Python `s.replace(pat, val)` for a nonempty pattern. -/
def replaceAll (pat val s : List Char) : List Char :=
  replaceAllAux pat val s.length s

/-- Sequential placeholder substitution of lines 543-550: for each
`(name, value)` pair of the mapping, in order, replace every occurrence of
`\x7b name \x7d` in the accumulated string by `value`. -/
def fill_placeholders (body : List Char) (values : List (List Char × List Char)) : List Char :=
  values.foldl (fun acc nv => replaceAll (lbrace :: (nv.1 ++ [rbrace])) nv.2 acc) body

/-! ### Structured bodies, for stating what simultaneous substitution means

A body is viewed as a sequence of brace-free literal runs and `\x7b name \x7d`
placeholder spans.  `substSeg` is the specification's simultaneous
substitution: a placeholder whose name is in the mapping becomes its value,
any other placeholder stays literal, literal text is untouched. -/

/-- A body segment: literal text or a placeholder span. -/
inductive Seg where
  | lit (t : List Char)
  | ph (n : List Char)
deriving DecidableEq

/-- Flat text of one segment. -/
def segRender : Seg → List Char
  | .lit t => t
  | .ph n => lbrace :: (n ++ [rbrace])

/-- Flat text of a segment sequence. -/
def render (segs : List Seg) : List Char :=
  (segs.map segRender).flatten

/-- Boolean test that a string contains neither brace character. -/
def braceFreeB (t : List Char) : Bool :=
  t.all (fun c => decide (c ≠ lbrace) && decide (c ≠ rbrace))

/-- Well-formed segment: literal runs are brace-free, placeholder names are
brace-free and nonempty. -/
def wfSegB : Seg → Bool
  | .lit t => braceFreeB t
  | .ph n => braceFreeB n && decide (n ≠ [])

/-- First-match association-list lookup (Python dict lookup). -/
def lookupA (n : List Char) : List (List Char × List Char) → Option (List Char)
  | [] => none
  | kv :: rest => if kv.1 = n then some kv.2 else lookupA n rest

/-- Specification-side simultaneous substitution on one segment. -/
def substSeg (values : List (List Char × List Char)) : Seg → Seg
  | .lit t => .lit t
  | .ph n =>
    match lookupA n values with
    | some v => .lit v
    | none => .ph n

/-- Substitution of a single name, used to describe one `str.replace` pass. -/
def phSub (n v : List Char) : Seg → Seg
  | .lit t => .lit t
  | .ph m => if m = n then .lit v else .ph m

/-- Example body of the claim: `A \x7bx\x7d and \x7by\x7d and \x7bx\x7d`. -/
def exampleBody : List Char :=
  ['A', ' ', lbrace, 'x', rbrace, ' ', 'a', 'n', 'd', ' ',
   lbrace, 'y', rbrace, ' ', 'a', 'n', 'd', ' ', lbrace, 'x', rbrace]

/-- Example body `\x7ba\x7d \x7bb\x7d` of claim C10. -/
def c10Body : List Char := [lbrace, 'a', rbrace, ' ', lbrace, 'b', rbrace]

/-- Example mapping of claim C10: `a` to `\x7bb\x7d`, `b` to `Y`. -/
def c10Values : List (List Char × List Char) :=
  [(['a'], [lbrace, 'b', rbrace]), (['b'], ['Y'])]

/-- Segments of the body `Hi \x7bx\x7d`, used as a concrete witness. -/
def c2WitSegs : List Seg := [Seg.lit ['H', 'i', ' '], Seg.ph ['x']]

/-- Mapping `x` to `Bob`, used as a concrete witness. -/
def c2WitValues : List (List Char × List Char) := [(['x'], ['B', 'o', 'b'])]

/-! ### Tag parsing (src/prompt_app.py lines 286 and 381)

Python: `[tag.strip() for tag in tags_text.split(",") if tag.strip()]`. -/

/-- Whitespace characters removed by Python's `str.strip`. -/
def isPySpace (c : Char) : Bool :=
  c == ' ' || c == '\t' || c == '\n' || c == '\r' || c == Char.ofNat 11 || c == Char.ofNat 12

/-- Python `str.strip`: remove leading and trailing whitespace. -/
def pyStrip (s : List Char) : List Char :=
  ((s.dropWhile isPySpace).reverse.dropWhile isPySpace).reverse

/-- Python `str.split(",")`: the (always nonempty) list of comma-separated
pieces; the empty string splits to one empty piece. -/
def splitComma : List Char → List (List Char)
  | [] => [[]]
  | c :: cs =>
    match splitComma cs with
    | [] => [[]]
    | h :: t => if c = ',' then [] :: h :: t else (c :: h) :: t

/-- Parsed tag list of lines 286 and 381: split on commas, strip each piece,
keep the nonempty results, duplicates preserved. -/
def parseTags (raw : List Char) : List (List Char) :=
  ((splitComma raw).map pyStrip).filter (fun t => decide (t ≠ []))

/-! ### The typed store and its operations

A record is one of the prompt dicts of the source with all ten fields present
(lines 21-31 and 384-394); the store is the `st.session_state.prompts` dict,
embedded as an insertion-ordered association list from category name to record
list.  Fresh identifiers (`uuid.uuid4()`) and the current time
(`datetime.datetime.now().isoformat()`) are passed in as opaque string
parameters. -/

/-- A prompt record with the fields of lines 384-394. -/
structure Record where
  id : List Char
  name : List Char
  description : List Char
  prompt : List Char
  tags : List (List Char)
  created_at : List Char
  updated_at : List Char
  version : Nat
  favorite : Bool
  usage_count : Nat
deriving DecidableEq

/-- The store: category name to ordered record list, insertion-ordered. -/
abbrev Store := List (List Char × List Record)

/-- Errors surfaced by the store operations (`st.error` on lines 283 and 374;
the spec's NotFoundError for an unknown identifier). -/
inductive StoreErr where
  | validation
  | notFound
deriving DecidableEq

/-- Append a record to a category's list, creating the category when absent
(lines 376-378 with 397; lines 316-320). -/
def appendToCat (s : Store) (c : List Char) (r : Record) : Store :=
  if s.any (fun kv => decide (kv.1 = c)) then
    s.map (fun kv => if kv.1 = c then (kv.1, kv.2 ++ [r]) else kv)
  else
    s ++ [(c, [r])]

/-- Creation of a prompt (lines 372-397): the code rejects exactly an empty
name or empty prompt body (`if not new_name or not new_prompt`, line 373),
otherwise builds the record of lines 384-394 — version 1, both timestamps set
to now, usage count 0 — and appends it to the category. -/
def createStep (s : Store) (category name description body rawTags : List Char)
    (favorite : Bool) (now freshId : List Char) : Except StoreErr (Store × Record) :=
  if name = [] ∨ body = [] then .error .validation
  else
    let r : Record :=
      ⟨freshId, name, description, body, parseTags rawTags, now, now, 1, favorite, 0⟩
    .ok (appendToCat s category r, r)

/-- First category holding a record with the given identifier, with that
record: the data the edit form keeps in `edit_prompt`/`edit_prompt_category`. -/
def findOwner : Store → List Char → Option (List Char × Record)
  | [], _ => none
  | kv :: rest, pid =>
    match kv.2.find? (fun r => decide (r.id = pid)) with
    | some r => some (kv.1, r)
    | none => findOwner rest pid

/-- Removal by identifier from one category's list (lines 293 and 428). -/
def removeFromCat (recs : List Record) (pid : List Char) : List Record :=
  recs.filter (fun r => decide (r.id ≠ pid))

/-- Update of a prompt (lines 281-325): validation of the new name and body
first (line 282, empty-string test only), then the record is removed from its
category (line 293) and rebuilt (lines 296-313) — tags reparsed, `updated_at`
reset, favorite and usage count carried over, and version and `created_at`
advanced to old+1 and now exactly when `increment_version` is set (lines
307-313) — then appended to the target category (lines 316-320), after which
every category left with an empty list is dropped (lines 322-325). -/
def updateStep (s : Store)
    (pid newName newDescription newBody rawTags newCategory : List Char)
    (inc : Bool) (now : List Char) : Except StoreErr (Store × Record) :=
  if newName = [] ∨ newBody = [] then .error .validation
  else
    match findOwner s pid with
    | none => .error .notFound
    | some own =>
      let s1 := s.map (fun kv =>
        if kv.1 = own.1 then (kv.1, removeFromCat kv.2 pid) else kv)
      let r' : Record :=
        ⟨pid, newName, newDescription, newBody, parseTags rawTags,
          (if inc then now else own.2.created_at), now,
          (if inc then own.2.version + 1 else own.2.version),
          own.2.favorite, own.2.usage_count⟩
      let s2 := appendToCat s1 newCategory r'
      .ok (s2.filter (fun kv => decide (kv.2 ≠ [])), r')

/-- Deletion of a prompt (lines 424-432): removal from its category (line 428),
then that category — and only that one — is dropped when its list became empty
(lines 430-432). -/
def deleteStep (s : Store) (category pid : List Char) : Store :=
  (s.map (fun kv => if kv.1 = category then (kv.1, removeFromCat kv.2 pid) else kv)).filter
    (fun kv => !(decide (kv.1 = category) && decide (kv.2 = [])))

/-- Store left in the session by a create call: replaced on success, untouched
when validation failed (the error branch of line 374 performs no mutation). -/
def createStore (s : Store) (category name description body rawTags : List Char)
    (favorite : Bool) (now freshId : List Char) : Store :=
  match createStep s category name description body rawTags favorite now freshId with
  | .ok p => p.1
  | .error _ => s

/-- Store left in the session by an update call: replaced on success, untouched
when validation failed (the error branch of line 283 performs no mutation). -/
def updateStore (s : Store)
    (pid newName newDescription newBody rawTags newCategory : List Char)
    (inc : Bool) (now : List Char) : Store :=
  match updateStep s pid newName newDescription newBody rawTags newCategory inc now with
  | .ok p => p.1
  | .error _ => s

/-- No category of the store is mapped to an empty record list. -/
def noEmptyB (s : Store) : Bool :=
  s.all (fun kv => decide (kv.2 ≠ []))

/-- Record used in concrete witnesses: one prompt `p` in category `c`. -/
def witRecord : Record := ⟨['p'], ['n'], [], ['b'], [], ['t'], ['t'], 1, false, 0⟩

/-- Store used in concrete witnesses. -/
def witStore : Store := [(['c'], [witRecord])]

/-- Record produced by the witness update of `witStore`. -/
def witUpdRecord : Record := ⟨['p'], ['m'], [], ['b'], [], ['u'], ['u'], 2, false, 0⟩


/-! ### JSON documents and the import/export path (src/prompt_app.py lines 449-506)

The uploaded document is arbitrary JSON.  The code checks only that the top
level is a dict (line 471); it then iterates the category values, back-fills
absent fields of each entry (lines 473-489), assigns the document to the
session store (line 491), recomputes the tag set (lines 494-499) and saves.
Any exception raised inside the `try` block is caught on line 505, after
which no further statement of the block runs.  Python's dynamic behaviour is
embedded case by case: `field in prompt` is key membership on a dict, element
membership on a list, a substring test on a string, and a TypeError
otherwise; item assignment with a string key succeeds only on a dict;
iteration yields the elements of a list, the characters of a string, the keys
of a dict, and a TypeError otherwise.  `str(uuid.uuid4())` and
`datetime.datetime.now().isoformat()` are passed in as opaque parameters. -/

/-- A JSON value. -/
inductive JVal where
  | jnull
  | jbool (b : Bool)
  | jnum (n : Int)
  | jstr (s : List Char)
  | jarr (xs : List JVal)
  | jobj (kvs : List (List Char × JVal))

/-- Failure modes of the import path: the explicit shape error of line 504, or
an exception caught on line 505. -/
inductive ImpErr where
  | formatError
  | exceptionError
deriving DecidableEq

/-- Python substring containment `pat in s` on strings: `pat` occurs as a
contiguous run of `s` (the empty pattern is always contained). -/
def pySubstr (pat : List Char) : List Char → Bool
  | [] => decide (pat = [])
  | c :: cs => List.isPrefixOf pat (c :: cs) || pySubstr pat cs

/-- Python `field in prompt` (lines 476-488). -/
def pyContains (field : List Char) : JVal → Option Bool
  | .jobj kvs => some ((kvs.map Prod.fst).any (fun k => decide (k = field)))
  | .jarr xs => some (xs.any (fun v =>
      match v with
      | .jstr s => decide (s = field)
      | _ => false))
  | .jstr s => some (pySubstr field s)
  | _ => none

/-- Python dict assignment `d[k] = v`: replace an existing key in place, else
append the new key in insertion order. -/
def setKey (k : List Char) (v : JVal) : List (List Char × JVal) → List (List Char × JVal)
  | [] => [(k, v)]
  | kv :: rest => if kv.1 = k then (k, v) :: rest else kv :: setKey k v rest

/-- Python `prompt[field] = v` (lines 477-489): succeeds only on a dict;
strings and lists raise a TypeError on a string index. -/
def pySetItem (field : List Char) (v : JVal) : JVal → Option JVal
  | .jobj kvs => some (.jobj (setKey field v kvs))
  | _ => none

/-- One back-fill step of lines 476-489: `if field not in prompt:
prompt[field] = dflt`. -/
def backfill (field : List Char) (dflt : JVal) (p : JVal) : Option JVal :=
  match pyContains field p with
  | none => none
  | some true => some p
  | some false => pySetItem field dflt p

/-- Normalization of one incoming entry, in the source's field order
(lines 476-489). -/
def normalizeEntry (freshId now : List Char) (p : JVal) : Option JVal :=
  (backfill ("id").toList (.jstr freshId) p).bind fun p1 =>
  (backfill ("created_at").toList (.jstr now) p1).bind fun p2 =>
  (backfill ("updated_at").toList (.jstr now) p2).bind fun p3 =>
  (backfill ("version").toList (.jnum 1) p3).bind fun p4 =>
  (backfill ("tags").toList (.jarr []) p4).bind fun p5 =>
  (backfill ("favorite").toList (.jbool false) p5).bind fun p6 =>
  backfill ("usage_count").toList (.jnum 0) p6

/-- Option-valued traversal (a loop running inside the `try` block). -/
def mapOpt (f : α → Option β) : List α → Option (List β)
  | [] => some []
  | x :: xs => (f x).bind fun y => (mapOpt f xs).map fun ys => y :: ys

/-- Python iteration `for p in prompts` (line 474). -/
def pyIterate : JVal → Option (List JVal)
  | .jarr xs => some xs
  | .jstr s => some (s.map (fun c => JVal.jstr [c]))
  | .jobj kvs => some (kvs.map (fun kv => JVal.jstr kv.1))
  | _ => none

/-- Normalization of one category value.  A list is rebuilt from its
normalized entries (its dict entries are mutated in place on lines 476-489).
Any other iterable is kept as it stands once its iteration products normalize
without an exception: iterating a string or a dict yields fresh strings, on
which every attempted assignment raises, so success implies nothing changed. -/
def normalizeCatValue (freshId now : List Char) : JVal → Option JVal
  | .jarr xs => (mapOpt (normalizeEntry freshId now) xs).map .jarr
  | v =>
    (pyIterate v).bind fun entries =>
    (mapOpt (normalizeEntry freshId now) entries).map fun _ => v

/-- The import of lines 466-506 up to (and excluding) the session assignment
of line 491: the top-level shape check, then normalization of every entry.
The payload is the document that line 491 assigns to the session store. -/
def runImportDoc (freshId now : List Char) : JVal → Except ImpErr JVal
  | .jobj cats =>
    match mapOpt (fun kv =>
        (normalizeCatValue freshId now kv.2).map fun v => (kv.1, v)) cats with
    | some cats2 => .ok (.jobj cats2)
    | none => .error .exceptionError
  | _ => .error .formatError

/-- Equality of hashable (scalar) JSON values as used by Python set
membership; only scalars reach the tag set because unhashable elements raise
first.  Python's cross-type equalities (such as between 1 and True) are not
modelled; no claim depends on the tag set's contents. -/
def scalarEq : JVal → JVal → Bool
  | .jnull, .jnull => true
  | .jbool a, .jbool b => a == b
  | .jnum a, .jnum b => a == b
  | .jstr a, .jstr b => a == b
  | _, _ => false

/-- Hashability of a JSON value: lists and dicts are unhashable. -/
def jHashable : JVal → Bool
  | .jarr _ => false
  | .jobj _ => false
  | _ => true

/-- Set insertion, modelling `set.add`. -/
def setInsert (acc : List JVal) (x : JVal) : List JVal :=
  if acc.any (fun y => scalarEq y x) then acc else acc ++ [x]

/-- Python `all_tags.update(v)` (line 498): add every element of an iterable
of hashable values to the set; TypeError on a non-iterable value or an
unhashable element. -/
def setUpdate (acc : List JVal) : JVal → Option (List JVal)
  | .jarr xs => if xs.all jHashable then some (xs.foldl setInsert acc) else none
  | .jstr s => some ((s.map (fun c => JVal.jstr [c])).foldl setInsert acc)
  | .jobj kvs => some ((kvs.map (fun kv => JVal.jstr kv.1)).foldl setInsert acc)
  | _ => none

/-- Python `p['tags']` in the tag loop (line 498): dict-key lookup; reached on
a string or list only via the substring or element reading of `'tags' in p`,
where the string index then raises. -/
def pyGetTags : JVal → Option JVal
  | .jobj kvs =>
    match kvs.find? (fun kv => decide (kv.1 = ("tags").toList)) with
    | some kv => some kv.2
    | none => none
  | _ => none

/-- The tag loop body for one entry (lines 497-498). -/
def collectEntryTags (acc : List JVal) (p : JVal) : Option (List JVal) :=
  match pyContains ("tags").toList p with
  | none => none
  | some false => some acc
  | some true => (pyGetTags p).bind (setUpdate acc)

/-- Option-valued fold over entries (the inner loop of lines 496-498). -/
def foldEntryTags : List JVal → List JVal → Option (List JVal)
  | acc, [] => some acc
  | acc, p :: ps => (collectEntryTags acc p).bind fun acc2 => foldEntryTags acc2 ps

/-- The tag loop over one category value (lines 495-498). -/
def collectCatTags (acc : List JVal) (v : JVal) : Option (List JVal) :=
  (pyIterate v).bind fun entries => foldEntryTags acc entries

/-- Tag recomputation over the freshly assigned store (lines 494-499). -/
def collectTagsCats : List JVal → List (List Char × JVal) → Option (List JVal)
  | acc, [] => some acc
  | acc, kv :: rest => (collectCatTags acc kv.2).bind fun acc2 => collectTagsCats acc2 rest

/-- Session state touched by import: the store and the derived tag list. -/
structure JSession where
  prompts : JVal
  all_tags : List JVal

/-- Tag recomputation over a whole document (always a mapping here). -/
def collectTagsDoc : JVal → Option (List JVal)
  | .jobj cats => collectTagsCats [] cats
  | _ => none

/-- The part of import after the store assignment of line 491: the freshly
installed document keeps the old tag list when the tag loop raises, and gets
the recomputed tags on success. -/
def applyTagPhase (sess : JSession) (d : JVal) : JSession × Option ImpErr :=
  match collectTagsDoc d with
  | none => (⟨d, sess.all_tags⟩, some .exceptionError)
  | some tags => (⟨d, tags⟩, none)

/-- The full import call (lines 466-506).  On a format error or an exception
during normalization nothing has been assigned and the session is unchanged;
the store assignment of line 491 precedes the tag loop, so an exception there
leaves the freshly installed store with the old tag list. -/
def runImportSession (freshId now : List Char) (sess : JSession) (doc : JVal) :
    JSession × Option ImpErr :=
  match runImportDoc freshId now doc with
  | .error e => (sess, some e)
  | .ok d => applyTagPhase sess d

/-- JSON form of one record, with the field order of lines 384-394. -/
def recToJson (r : Record) : JVal :=
  .jobj [(("id").toList, .jstr r.id),
         (("name").toList, .jstr r.name),
         (("description").toList, .jstr r.description),
         (("prompt").toList, .jstr r.prompt),
         (("tags").toList, .jarr (r.tags.map .jstr)),
         (("created_at").toList, .jstr r.created_at),
         (("updated_at").toList, .jstr r.updated_at),
         (("version").toList, .jnum r.version),
         (("favorite").toList, .jbool r.favorite),
         (("usage_count").toList, .jnum r.usage_count)]

/-- The export of lines 453-461: `json.dumps` of the session store, embedded
as the JSON tree it serializes. -/
def exportStore (s : Store) : JVal :=
  .jobj (s.map fun kv => (kv.1, .jarr (kv.2.map recToJson)))

/-- Record-shaped entry: a JSON object. -/
def isObjB : JVal → Bool
  | .jobj _ => true
  | _ => false

/-- A list of record-shaped entries. -/
def isRecListB : JVal → Bool
  | .jarr es => es.all isObjB
  | _ => false

/-- The claim's top-level shape: a mapping from category names to lists of
record-shaped (object) entries. -/
def isGoodShape : JVal → Bool
  | .jobj cats => cats.all (fun kv => isRecListB kv.2)
  | _ => false

/-- An empty JSON list. -/
def isEmptyArrB : JVal → Bool
  | .jarr [] => true
  | _ => false

/-- Some category of the document is mapped to an empty list. -/
def hasEmptyCategory : JVal → Bool
  | .jobj cats => cats.any (fun kv => isEmptyArrB kv.2)
  | _ => false

/-- Document of the C5 counterexample: one category `c` holding one entry
whose tags field is the number 42. -/
def c5Doc : JVal := .jobj [(['c'], .jarr [.jobj [(("tags").toList, .jnum 42)]])]

/-- The entry of `c5Doc` after back-filling (the missing fields are appended
in the order of lines 476-489; the present tags field stays in place). -/
def c5Entry : JVal :=
  .jobj [(("tags").toList, .jnum 42),
         (("id").toList, .jstr ['i']),
         (("created_at").toList, .jstr ['t']),
         (("updated_at").toList, .jstr ['t']),
         (("version").toList, .jnum 1),
         (("favorite").toList, .jbool false),
         (("usage_count").toList, .jnum 0)]


/-! ### Lemmas about the scanners and `dedupFirst` -/

theorem scanPH_eq_filter (s : List Char) :
    ∀ st : Option (List Char),
      scanPH s st = (scanPHSpec s st).filter (fun x => decide (x ≠ [])) := by
  induction s with
  | nil => intro st; simp [scanPH, scanPHSpec]
  | cons c cs ih =>
    intro st
    match st with
    | none =>
      by_cases hc : c = lbrace <;> simp [scanPH, scanPHSpec, hc, ih]
    | some acc =>
      by_cases hc : c = rbrace
      · by_cases ha : acc = [] <;> simp [scanPH, scanPHSpec, hc, ha, ih]
      · simp [scanPH, scanPHSpec, hc, ih]

theorem dedupFirst_aux_nodup (l : List (List Char)) :
    ∀ acc : List (List Char), acc.Nodup →
      (l.foldl (fun acc x => if x ∈ acc then acc else acc ++ [x]) acc).Nodup := by
  induction l with
  | nil => intro acc h; simpa using h
  | cons x xs ih =>
    intro acc h
    by_cases hx : x ∈ acc
    · simpa [hx] using ih acc h
    · have : (acc ++ [x]).Nodup := by simp [List.nodup_append, h, hx]
      simpa [hx] using ih (acc ++ [x]) this

theorem dedupFirst_nodup (l : List (List Char)) : (dedupFirst l).Nodup :=
  dedupFirst_aux_nodup l [] List.nodup_nil

/-- C1 (counterexample): on the body `\x7b\x7d` the code extracts nothing, while
the claim's reading — a name is the text enclosed between a `\x7b` and the next
`\x7d`, used verbatim, hence possibly empty — yields the empty name. -/
theorem c1_counterexample :
    extract_placeholders [lbrace, rbrace] = [] ∧
    extractPlaceholdersSpec [lbrace, rbrace] = [[]] ∧
    ([] : List (List Char)) ≠ [[]] := by
  refine ⟨by decide, by decide, by decide⟩

/-- C1 (amended): extract_placeholders returns the sequence of nonempty
placeholder names — the nonempty text enclosed between a `\x7b` and the next
`\x7d`, used verbatim — in order of first appearance, each distinct name exactly
once; in particular on `A \x7bx\x7d and \x7by\x7d and \x7bx\x7d` it returns
`x, y`. -/
theorem c1_extract_placeholders :
    (∀ body : List Char,
      extract_placeholders body =
        dedupFirst ((scanPHSpec body none).filter (fun x => decide (x ≠ []))) ∧
      (extract_placeholders body).Nodup) ∧
    extract_placeholders exampleBody = [['x'], ['y']] := by
  refine ⟨fun body => ⟨?_, dedupFirst_nodup _⟩, by decide⟩
  rw [extract_placeholders, scanPH_eq_filter]

/-- C10: fill_placeholders substitutes sequentially in the mapping's order, not
simultaneously: filling `\x7ba\x7d \x7bb\x7d` with `a` mapped to `\x7bb\x7d` and
`b` mapped to `Y` yields `Y Y`, not `\x7bb\x7d Y` — the value substituted for
`a` is itself rewritten by the later replacement pass for `b`. -/
theorem c10_fill_sequential :
    fill_placeholders c10Body c10Values = ['Y', ' ', 'Y'] ∧
    fill_placeholders c10Body c10Values ≠ [lbrace, 'b', rbrace, ' ', 'Y'] := by
  refine ⟨by decide, by decide⟩

/-! ### Lemmas about `replaceAll` -/

theorem braceFreeB_mem {t : List Char} {c : Char} (h : braceFreeB t = true)
    (hc : c ∈ t) : c ≠ lbrace ∧ c ≠ rbrace := by
  have := List.all_eq_true.mp h c hc
  simpa using this

theorem replaceAllAux_congr (pat val : List Char) :
    ∀ f₁ f₂ : Nat, ∀ s : List Char, s.length ≤ f₁ → s.length ≤ f₂ →
      replaceAllAux pat val f₁ s = replaceAllAux pat val f₂ s := by
  intro f₁
  induction f₁ with
  | zero =>
    intro f₂ s h1 _
    have hs : s = [] := List.eq_nil_of_length_eq_zero (Nat.le_zero.mp h1)
    subst hs
    cases f₂ <;> simp [replaceAllAux]
  | succ f ih =>
    intro f₂ s h1 h2
    match s with
    | [] => cases f₂ <;> simp [replaceAllAux]
    | c :: cs =>
      match f₂ with
      | 0 => exact absurd h2 (by simp)
      | g + 1 =>
        have hcs1 : cs.length ≤ f := by
          have : cs.length + 1 ≤ f + 1 := by simpa using h1
          omega
        have hcs2 : cs.length ≤ g := by
          have : cs.length + 1 ≤ g + 1 := by simpa using h2
          omega
        have hd : (List.drop (pat.length - 1) cs).length ≤ cs.length := by
          simp [List.length_drop]
        simp only [replaceAllAux]
        by_cases hp : List.isPrefixOf pat (c :: cs) = true
        · simp only [hp, if_true]
          congr 1
          exact ih g _ (Nat.le_trans hd hcs1) (Nat.le_trans hd hcs2)
        · simp only [hp, if_false, Bool.false_eq_true]
          congr 1
          exact ih g cs hcs1 hcs2

theorem replaceAll_nil (pat val : List Char) : replaceAll pat val [] = [] := rfl

theorem replaceAll_cons_pos (a : Char) (p val : List Char) (c : Char) (cs : List Char)
    (h : List.isPrefixOf (a :: p) (c :: cs) = true) :
    replaceAll (a :: p) val (c :: cs) =
      val ++ replaceAll (a :: p) val (List.drop p.length cs) := by
  unfold replaceAll
  simp only [List.length_cons, replaceAllAux, h, if_true, Nat.add_sub_cancel]
  congr 1
  have hd : (List.drop p.length cs).length ≤ cs.length := by
    simp [List.length_drop]
  exact replaceAllAux_congr _ _ cs.length _ _ hd (Nat.le_refl _)

theorem replaceAll_cons_neg (pat val : List Char) (c : Char) (cs : List Char)
    (h : List.isPrefixOf pat (c :: cs) = false) :
    replaceAll pat val (c :: cs) = c :: replaceAll pat val cs := by
  unfold replaceAll
  simp only [List.length_cons, replaceAllAux, h, Bool.false_eq_true, if_false]

theorem replaceAll_skip (q val : List Char) :
    ∀ t s : List Char, (∀ c ∈ t, c ≠ lbrace) →
      replaceAll (lbrace :: q) val (t ++ s) = t ++ replaceAll (lbrace :: q) val s := by
  intro t
  induction t with
  | nil => intro s _; simp
  | cons c t' ih =>
    intro s ht
    have hc : c ≠ lbrace := ht c (by simp)
    have hb : (lbrace == c) = false := beq_eq_false_iff_ne.mpr (Ne.symm hc)
    have hpf : List.isPrefixOf (lbrace :: q) (c :: (t' ++ s)) = false := by
      simp [List.isPrefixOf, hb]
    rw [List.cons_append, replaceAll_cons_neg _ _ _ _ hpf,
      ih s (fun x hx => ht x (by simp [hx]))]
    rfl

theorem not_prefix_of_ne :
    ∀ n m s : List Char, braceFreeB n = true → braceFreeB m = true → n ≠ m →
      List.isPrefixOf (n ++ [rbrace]) (m ++ rbrace :: s) = false := by
  intro n
  induction n with
  | nil =>
    intro m s _ hm hne
    match m with
    | [] => exact absurd rfl hne
    | c :: m' =>
      have hc : c ≠ rbrace := (braceFreeB_mem hm (by simp)).2
      have hb : (rbrace == c) = false := beq_eq_false_iff_ne.mpr (Ne.symm hc)
      simp [List.isPrefixOf, hb]
  | cons a n' ih =>
    intro m s hn hne
    match m with
    | [] =>
      have ha : a ≠ rbrace := (braceFreeB_mem hn (by simp)).2
      have hb : (a == rbrace) = false := beq_eq_false_iff_ne.mpr ha
      simp [List.isPrefixOf, hb]
    | c :: m' =>
      intro hnm
      by_cases hac : a = c
      · subst hac
        have hn' : braceFreeB n' = true := by
          have : ∀ x ∈ n', x ≠ lbrace ∧ x ≠ rbrace := fun x hx =>
            braceFreeB_mem hn (by simp [hx])
          simp only [braceFreeB, List.all_eq_true]
          intro x hx
          simpa using this x hx
        have hm' : braceFreeB m' = true := by
          have : ∀ x ∈ m', x ≠ lbrace ∧ x ≠ rbrace := fun x hx =>
            braceFreeB_mem hne (by simp [hx])
          simp only [braceFreeB, List.all_eq_true]
          intro x hx
          simpa using this x hx
        have hne' : n' ≠ m' := by
          intro h
          exact hnm (by rw [h])
        have := ih m' s hn' hm' hne'
        simp [List.isPrefixOf, this]
      · have hb : (a == c) = false := beq_eq_false_iff_ne.mpr hac
        simp [List.isPrefixOf, hb]

theorem replaceAll_render (n val : List Char) (hn : braceFreeB n = true) :
    ∀ segs : List Seg, (∀ sg ∈ segs, wfSegB sg = true) →
      replaceAll (lbrace :: (n ++ [rbrace])) val (render segs) =
        render (segs.map (phSub n val)) := by
  intro segs
  induction segs with
  | nil => intro _; simp [render, replaceAll, replaceAllAux]
  | cons sg rest ih =>
    intro hwf
    have hwsg := hwf sg (by simp)
    have hwrest : ∀ x ∈ rest, wfSegB x = true := fun x hx => hwf x (by simp [hx])
    match sg with
    | .lit t =>
      have hbf : braceFreeB t = true := by simpa [wfSegB] using hwsg
      have h1 : ∀ c ∈ t, c ≠ lbrace := fun c hc => (braceFreeB_mem hbf hc).1
      have hr : render (Seg.lit t :: rest) = t ++ render rest := by
        simp [render, segRender]
      rw [hr, replaceAll_skip _ _ t _ h1, ih hwrest]
      simp [render, segRender, phSub]
    | .ph m =>
      have hm : braceFreeB m = true := by
        have := hwsg
        simp only [wfSegB, Bool.and_eq_true] at this
        exact this.1
      have hrend : render (Seg.ph m :: rest) =
          lbrace :: (m ++ (rbrace :: render rest)) := by
        simp [render, segRender]
      by_cases hmn : m = n
      · subst hmn
        have hsplit : m ++ (rbrace :: render rest) = (m ++ [rbrace]) ++ render rest := by
          simp
        have hpre : List.isPrefixOf (lbrace :: (m ++ [rbrace]))
            (lbrace :: (m ++ (rbrace :: render rest))) = true := by
          rw [List.isPrefixOf_iff_prefix]
          refine ⟨render rest, ?_⟩
          simp
        rw [hrend, replaceAll_cons_pos _ _ _ _ _ hpre, hsplit, List.drop_left,
          ih hwrest]
        simp [render, segRender, phSub]
      · have hnp := not_prefix_of_ne n m (render rest) hn hm (fun h => hmn h.symm)
        have hpf0 : List.isPrefixOf (lbrace :: (n ++ [rbrace]))
            (lbrace :: (m ++ (rbrace :: render rest))) = false := by
          simp [List.isPrefixOf, hnp]
        have h1 : ∀ c ∈ m, c ≠ lbrace := fun c hc => (braceFreeB_mem hm hc).1
        have hbr : (lbrace == rbrace) = false := by decide
        have hpf1 : List.isPrefixOf (lbrace :: (n ++ [rbrace]))
            (rbrace :: render rest) = false := by
          simp [List.isPrefixOf, hbr]
        rw [hrend, replaceAll_cons_neg _ _ _ _ hpf0, replaceAll_skip _ _ m _ h1,
          replaceAll_cons_neg _ _ _ _ hpf1, ih hwrest]
        simp [render, segRender, phSub, hmn]

/-- C2 (counterexample): on the body `\x7ba\x7d` with `a` mapped to `\x7bb\x7d`
and `b` mapped to `Y`, the code returns `Y`, while by the claim the single
occurrence of `\x7ba\x7d` — whose name is present — is replaced by `a`'s value
and nothing else changes, so the result would be `\x7bb\x7d`. -/
theorem c2_counterexample :
    fill_placeholders [lbrace, 'a', rbrace] c10Values = ['Y'] ∧
    render (List.map (substSeg c10Values) [Seg.ph ['a']]) = [lbrace, 'b', rbrace] ∧
    render [Seg.ph ['a']] = [lbrace, 'a', rbrace] ∧
    (['Y'] : List Char) ≠ [lbrace, 'b', rbrace] := by
  refine ⟨by decide, by decide, by decide, by decide⟩

/-- C2 (amended): for a body made of brace-free literal runs and placeholder
spans with brace-free nonempty names, and a mapping whose names and values are
brace-free, fill_placeholders is the simultaneous substitution: every
placeholder occurrence whose name is present in the mapping becomes that
name's value (all occurrences of one name get the same value) and every other
occurrence stays the literal `\x7bname\x7d`; without the brace-free restriction
on values, a substituted value containing a later name's marker is rewritten
again (see the counterexample). -/
theorem c2_fill_placeholders :
    ∀ (values : List (List Char × List Char)) (segs : List Seg),
      (∀ sg ∈ segs, wfSegB sg = true) →
      (∀ nv ∈ values, braceFreeB nv.1 = true ∧ braceFreeB nv.2 = true) →
      fill_placeholders (render segs) values = render (segs.map (substSeg values)) := by
  intro values
  induction values with
  | nil =>
    intro segs _ _
    have hid : ∀ sg, substSeg [] sg = sg := fun sg => by
      cases sg <;> simp [substSeg, lookupA]
    have hmap : ∀ l : List Seg, List.map (substSeg []) l = l := by
      intro l
      induction l with
      | nil => rfl
      | cons a t iht => simp [hid a, iht]
    simp [fill_placeholders, hmap]
  | cons nv rest ih =>
    intro segs hwf hv
    have hnv := hv nv (by simp)
    have hrest : ∀ x ∈ rest, braceFreeB x.1 = true ∧ braceFreeB x.2 = true :=
      fun x hx => hv x (by simp [hx])
    have hstep : fill_placeholders (render segs) (nv :: rest) =
        fill_placeholders
          (replaceAll (lbrace :: (nv.1 ++ [rbrace])) nv.2 (render segs)) rest := by
      simp [fill_placeholders]
    rw [hstep, replaceAll_render nv.1 nv.2 hnv.1 segs hwf]
    have hwf' : ∀ sg ∈ segs.map (phSub nv.1 nv.2), wfSegB sg = true := by
      intro sg hsg
      obtain ⟨sg0, hsg0, rfl⟩ := List.mem_map.mp hsg
      have hw := hwf sg0 hsg0
      cases sg0 with
      | lit t => simpa [phSub, wfSegB] using hw
      | ph m =>
        by_cases h : m = nv.1
        · simp [phSub, h, wfSegB, hnv.2]
        · simpa [phSub, h, wfSegB] using hw
    rw [ih (segs.map (phSub nv.1 nv.2)) hwf' hrest, List.map_map]
    congr 1
    apply List.map_congr_left
    intro sg _
    cases sg with
    | lit t => simp [phSub, substSeg, Function.comp]
    | ph m =>
      by_cases h : m = nv.1
      · simp [phSub, substSeg, lookupA, h, Function.comp]
      · have h' : nv.1 ≠ m := fun hh => h hh.symm
        simp [phSub, substSeg, lookupA, h, h', Function.comp]

/-- Witness for the amended C2 at the concrete body `Hi \x7bx\x7d`. -/
theorem c2_fill_placeholders_witness :
    fill_placeholders (render c2WitSegs) c2WitValues =
      render (c2WitSegs.map (substSeg c2WitValues)) :=
  c2_fill_placeholders c2WitValues c2WitSegs (by decide) (by decide)

/-! ### Validation, tags, versioning and the empty-category invariant -/

/-- C3 (counterexample): create accepts a whitespace-only name — the check
`if not new_name or not new_prompt` (line 373) rejects only the empty string,
so a name consisting of one space passes validation and a record is created,
while the claim requires a ValidationError for whitespace-only names. -/
theorem c3_counterexample :
    (createStep [] ['c'] [' '] [] ['b'] [] false ['t'] ['i']).isOk = true ∧
    isPySpace ' ' = true ∧ ([' '] : List Char) ≠ [] := by
  refine ⟨by decide, by decide, by decide⟩

/-- C3 (amended): create fails with ValidationError exactly when its name or
body argument is the empty string (whitespace-only values are accepted), and
update fails with ValidationError exactly when the new name or new body is
empty; on such a failure the store is left unchanged. -/
theorem c3_validation :
    ∀ (s : Store) (category name description body rawTags : List Char)
      (favorite : Bool) (now freshId : List Char)
      (pid newName newDescription newBody rawTags2 newCategory : List Char)
      (inc : Bool) (now2 : List Char),
      (createStep s category name description body rawTags favorite now freshId =
          .error .validation ↔ (name = [] ∨ body = [])) ∧
      (updateStep s pid newName newDescription newBody rawTags2 newCategory inc now2 =
          .error .validation ↔ (newName = [] ∨ newBody = [])) ∧
      ((name = [] ∨ body = []) →
        createStore s category name description body rawTags favorite now freshId = s) ∧
      ((newName = [] ∨ newBody = []) →
        updateStore s pid newName newDescription newBody rawTags2 newCategory inc now2 = s) := by
  intro s category name description body rawTags favorite now freshId
  intro pid newName newDescription newBody rawTags2 newCategory inc now2
  refine ⟨?_, ?_, ?_, ?_⟩
  · by_cases h : name = [] ∨ body = [] <;> simp [createStep, h]
  · by_cases h : newName = [] ∨ newBody = []
    · simp [updateStep, h]
    · cases hf : findOwner s pid <;> simp [updateStep, h, hf]
  · intro h; simp [createStore, createStep, h]
  · intro h; simp [updateStore, updateStep, h]

/-- Witness for the amended C3: failing create and update calls leave the
(empty) store unchanged. -/
theorem c3_validation_witness :
    createStore [] ['c'] [] [] ['b'] [] false ['t'] ['i'] = [] ∧
    updateStore [] ['p'] [] [] ['b'] [] ['c'] true ['t'] = [] :=
  ⟨(c3_validation [] ['c'] [] [] ['b'] [] false ['t'] ['i']
      ['p'] [] [] ['b'] [] ['c'] true ['t']).2.2.1 (Or.inl rfl),
   (c3_validation [] ['c'] [] [] ['b'] [] false ['t'] ['i']
      ['p'] [] [] ['b'] [] ['c'] true ['t']).2.2.2 (Or.inl rfl)⟩

/-- C9 (counterexample): creating with tag text `a, a` — the tag list `a, a` —
yields a record whose tags hold `a` twice (line 381 stores the parsed list
verbatim, without deduplication), while the claim requires `a` exactly once. -/
theorem c9_counterexample :
    (createStep [] ['c'] ['n'] [] ['b'] ['a', ',', ' ', 'a'] false ['t'] ['i']).map
        (fun p => p.2.tags) = .ok [['a'], ['a']] ∧
    List.count ['a'] [['a'], ['a']] = 2 := by
  exact ⟨rfl, by decide⟩

/-- C9 (amended): a record produced by create or update carries the parsed tag
list verbatim — the tag text split on commas, each piece stripped, empty pieces
dropped — duplicates included; only the derived global tag index is a
deduplicated set. -/
theorem c9_tags :
    ∀ (s : Store) (category name description body rawTags : List Char)
      (favorite : Bool) (now freshId : List Char) (s' : Store) (r : Record)
      (pid newName newDescription newBody rawTags2 newCategory : List Char)
      (inc : Bool) (now2 : List Char) (s2 : Store) (r2 : Record),
      (createStep s category name description body rawTags favorite now freshId =
          .ok (s', r) → r.tags = parseTags rawTags) ∧
      (updateStep s pid newName newDescription newBody rawTags2 newCategory inc now2 =
          .ok (s2, r2) → r2.tags = parseTags rawTags2) := by
  intro s category name description body rawTags favorite now freshId s' r
  intro pid newName newDescription newBody rawTags2 newCategory inc now2 s2 r2
  constructor
  · intro h
    by_cases hv : name = [] ∨ body = []
    · simp [createStep, hv] at h
    · simp only [createStep, hv, if_false] at h
      obtain ⟨-, h2⟩ := by simpa using h
      rw [← h2]
  · intro h
    by_cases hv : newName = [] ∨ newBody = []
    · simp [updateStep, hv] at h
    · cases hf : findOwner s pid with
      | none => simp [updateStep, hv, hf] at h
      | some own =>
        simp only [updateStep, hv, if_false, hf] at h
        obtain ⟨-, h2⟩ := by simpa using h
        rw [← h2]

/-- Witness for the amended C9 at concrete create and update calls with tag
text `a,a`. -/
theorem c9_tags_witness :
    (⟨['i'], ['n'], [], ['b'], [['a'], ['a']], ['t'], ['t'], 1, false, 0⟩ : Record).tags =
      parseTags ['a', ',', 'a'] ∧
    (⟨['p'], ['m'], [], ['b'], [['a'], ['a']], ['u'], ['u'], 2, false, 0⟩ : Record).tags =
      parseTags ['a', ',', 'a'] :=
  ⟨(c9_tags [] ['c'] ['n'] [] ['b'] ['a', ',', 'a'] false ['t'] ['i']
      [(['c'], [⟨['i'], ['n'], [], ['b'], [['a'], ['a']], ['t'], ['t'], 1, false, 0⟩])]
      ⟨['i'], ['n'], [], ['b'], [['a'], ['a']], ['t'], ['t'], 1, false, 0⟩
      ['p'] ['m'] [] ['b'] ['a', ',', 'a'] ['c'] true ['u']
      [(['c'], [⟨['p'], ['m'], [], ['b'], [['a'], ['a']], ['u'], ['u'], 2, false, 0⟩])]
      ⟨['p'], ['m'], [], ['b'], [['a'], ['a']], ['u'], ['u'], 2, false, 0⟩).1 rfl,
   (c9_tags witStore ['c'] ['n'] [] ['b'] ['a', ',', 'a'] false ['t'] ['i']
      [(['c'], [⟨['i'], ['n'], [], ['b'], [['a'], ['a']], ['t'], ['t'], 1, false, 0⟩, witRecord])]
      ⟨['i'], ['n'], [], ['b'], [['a'], ['a']], ['t'], ['t'], 1, false, 0⟩
      ['p'] ['m'] [] ['b'] ['a', ',', 'a'] ['c'] true ['u']
      [(['c'], [⟨['p'], ['m'], [], ['b'], [['a'], ['a']], ['u'], ['u'], 2, false, 0⟩])]
      ⟨['p'], ['m'], [], ['b'], [['a'], ['a']], ['u'], ['u'], 2, false, 0⟩).2 rfl⟩

/-- C7: on every successful update of an existing record, the version becomes
exactly old+1 and created_at is reset to the edit time when increment_version
is set, and both are unchanged otherwise; updated_at is always reset to the
edit time; favorite and usage_count are carried over unchanged; consequently
the version never decreases — it rises by exactly 1 per increment call and by
0 otherwise, so it is non-decreasing over any sequence of updates. -/
theorem c7_update_versioning :
    ∀ (s : Store) (pid newName newDescription newBody rawTags newCategory : List Char)
      (inc : Bool) (now : List Char) (own : List Char × Record)
      (s' : Store) (r' : Record),
      findOwner s pid = some own →
      updateStep s pid newName newDescription newBody rawTags newCategory inc now =
        .ok (s', r') →
      r'.version = (if inc then own.2.version + 1 else own.2.version) ∧
      r'.created_at = (if inc then now else own.2.created_at) ∧
      r'.updated_at = now ∧
      r'.favorite = own.2.favorite ∧
      r'.usage_count = own.2.usage_count ∧
      own.2.version ≤ r'.version := by
  intro s pid newName newDescription newBody rawTags newCategory inc now own s' r' hf hu
  by_cases hv : newName = [] ∨ newBody = []
  · simp [updateStep, hv] at hu
  · simp only [updateStep, hv, if_false, hf] at hu
    obtain ⟨-, h2⟩ := by simpa using hu
    rw [← h2]
    refine ⟨rfl, rfl, rfl, rfl, rfl, ?_⟩
    cases inc <;> simp

/-- Witness for C7: updating the one-record store with increment_version set
yields version 2 and the reset creation time. -/
theorem c7_update_versioning_witness :
    witUpdRecord.version = (if true then witRecord.version + 1 else witRecord.version) ∧
    witUpdRecord.created_at = (if true then ['u'] else witRecord.created_at) ∧
    witUpdRecord.updated_at = ['u'] ∧
    witUpdRecord.favorite = witRecord.favorite ∧
    witUpdRecord.usage_count = witRecord.usage_count ∧
    witRecord.version ≤ witUpdRecord.version :=
  c7_update_versioning witStore ['p'] ['m'] [] ['b'] [] ['c'] true ['u']
    (['c'], witRecord) [(['c'], [witUpdRecord])] witUpdRecord rfl rfl

theorem appendToCat_noEmpty (s : Store) (c : List Char) (r : Record)
    (hs : noEmptyB s = true) : noEmptyB (appendToCat s c r) = true := by
  simp only [noEmptyB, List.all_eq_true] at hs ⊢
  intro kv hkv
  unfold appendToCat at hkv
  by_cases hany : s.any (fun kv => decide (kv.1 = c)) = true
  · rw [if_pos hany] at hkv
    obtain ⟨kv0, hkv0, hfe⟩ := List.mem_map.mp hkv
    by_cases hc : kv0.1 = c
    · rw [if_pos hc] at hfe
      rw [← hfe]
      simp
    · rw [if_neg hc] at hfe
      rw [← hfe]
      exact hs kv0 hkv0
  · rw [if_neg hany] at hkv
    rcases List.mem_append.mp hkv with h | h
    · exact hs kv h
    · simp only [List.mem_singleton] at h
      rw [h]
      simp

/-- C8 (amended): after every create, update or delete, no category of the
store is mapped to an empty record list — delete drops the category it emptied
and update drops every empty category — but the claim's blanket statement over
all store operations fails: a successful import installs the incoming document
verbatim, so it can introduce a category holding an empty list (see the
counterexample). -/
theorem c8_no_empty_categories :
    ∀ (s : Store) (category name description body rawTags : List Char)
      (favorite : Bool) (now freshId : List Char) (s' : Store) (r : Record)
      (pid newName newDescription newBody rawTags2 newCategory : List Char)
      (inc : Bool) (now2 : List Char) (s2 : Store) (r2 : Record)
      (category3 pid3 : List Char),
      (noEmptyB s = true →
        createStep s category name description body rawTags favorite now freshId =
          .ok (s', r) → noEmptyB s' = true) ∧
      (updateStep s pid newName newDescription newBody rawTags2 newCategory inc now2 =
          .ok (s2, r2) → noEmptyB s2 = true) ∧
      (noEmptyB s = true → noEmptyB (deleteStep s category3 pid3) = true) := by
  intro s category name description body rawTags favorite now freshId s' r
  intro pid newName newDescription newBody rawTags2 newCategory inc now2 s2 r2
  intro category3 pid3
  refine ⟨?_, ?_, ?_⟩
  · intro hs h
    by_cases hv : name = [] ∨ body = []
    · simp [createStep, hv] at h
    · simp only [createStep, hv, if_false] at h
      obtain ⟨h1, -⟩ := by simpa using h
      rw [← h1]
      exact appendToCat_noEmpty _ _ _ hs
  · intro h
    by_cases hv : newName = [] ∨ newBody = []
    · simp [updateStep, hv] at h
    · cases hf : findOwner s pid with
      | none => simp [updateStep, hv, hf] at h
      | some own =>
        simp only [updateStep, hv, if_false, hf] at h
        obtain ⟨h1, -⟩ := by simpa using h
        rw [← h1]
        simp only [noEmptyB, List.all_eq_true]
        intro kv hkv
        have hp := List.of_mem_filter hkv
        simpa using hp
  · intro hs
    simp only [noEmptyB, List.all_eq_true] at hs ⊢
    intro kv hkv
    unfold deleteStep at hkv
    have hmem := List.mem_filter.mp hkv
    obtain ⟨hkm, hq⟩ := hmem
    obtain ⟨kv0, hkv0, hfe⟩ := List.mem_map.mp hkm
    by_cases hc : kv0.1 = category3
    · rw [if_pos hc] at hfe
      rw [← hfe] at hq ⊢
      simp [hc] at hq
      simpa using hq
    · rw [if_neg hc] at hfe
      rw [← hfe]
      exact hs kv0 hkv0

/-- Witness for the amended C8: a create into a fresh category, an update that
moves the only record out of its category, and a delete of the last record all
leave no empty category behind. -/
theorem c8_no_empty_categories_witness :
    noEmptyB [(['c'], [witRecord]), (['d'],
      [⟨['i'], ['n'], [], ['b'], [], ['t'], ['t'], 1, false, 0⟩])] = true ∧
    noEmptyB [(['d'], [witUpdRecord])] = true ∧
    noEmptyB (deleteStep witStore ['c'] ['p']) = true := by
  refine ⟨?_, ?_, ?_⟩
  · exact (c8_no_empty_categories witStore ['d'] ['n'] [] ['b'] [] false ['t'] ['i']
      [(['c'], [witRecord]), (['d'], [⟨['i'], ['n'], [], ['b'], [], ['t'], ['t'], 1, false, 0⟩])]
      ⟨['i'], ['n'], [], ['b'], [], ['t'], ['t'], 1, false, 0⟩
      ['p'] ['m'] [] ['b'] [] ['d'] true ['u'] [(['d'], [witUpdRecord])] witUpdRecord
      ['c'] ['p']).1 (by decide) rfl
  · exact (c8_no_empty_categories witStore ['d'] ['n'] [] ['b'] [] false ['t'] ['i']
      [(['c'], [witRecord]), (['d'], [⟨['i'], ['n'], [], ['b'], [], ['t'], ['t'], 1, false, 0⟩])]
      ⟨['i'], ['n'], [], ['b'], [], ['t'], ['t'], 1, false, 0⟩
      ['p'] ['m'] [] ['b'] [] ['d'] true ['u'] [(['d'], [witUpdRecord])] witUpdRecord
      ['c'] ['p']).2.1 rfl
  · exact (c8_no_empty_categories witStore ['d'] ['n'] [] ['b'] [] false ['t'] ['i']
      [(['c'], [witRecord]), (['d'], [⟨['i'], ['n'], [], ['b'], [], ['t'], ['t'], 1, false, 0⟩])]
      ⟨['i'], ['n'], [], ['b'], [], ['t'], ['t'], 1, false, 0⟩
      ['p'] ['m'] [] ['b'] [] ['d'] true ['u'] [(['d'], [witUpdRecord])] witUpdRecord
      ['c'] ['p']).2.2 (by decide)

/-! ### Import and export -/

theorem backfill_jobj (field : List Char) (dflt : JVal) (kvs : List (List Char × JVal)) :
    ∃ kvs2, backfill field dflt (.jobj kvs) = some (.jobj kvs2) := by
  by_cases h : ((kvs.map Prod.fst).any (fun k => decide (k = field))) = true
  · exact ⟨kvs, by simp [backfill, pyContains, h]⟩
  · exact ⟨setKey field dflt kvs, by simp [backfill, pyContains, pySetItem, h]⟩

theorem normalizeEntry_jobj (freshId now : List Char) (kvs : List (List Char × JVal)) :
    ∃ kvs2, normalizeEntry freshId now (.jobj kvs) = some (.jobj kvs2) := by
  obtain ⟨k1, h1⟩ := backfill_jobj ("id").toList (.jstr freshId) kvs
  obtain ⟨k2, h2⟩ := backfill_jobj ("created_at").toList (.jstr now) k1
  obtain ⟨k3, h3⟩ := backfill_jobj ("updated_at").toList (.jstr now) k2
  obtain ⟨k4, h4⟩ := backfill_jobj ("version").toList (.jnum 1) k3
  obtain ⟨k5, h5⟩ := backfill_jobj ("tags").toList (.jarr []) k4
  obtain ⟨k6, h6⟩ := backfill_jobj ("favorite").toList (.jbool false) k5
  obtain ⟨k7, h7⟩ := backfill_jobj ("usage_count").toList (.jnum 0) k6
  refine ⟨k7, ?_⟩
  unfold normalizeEntry
  rw [h1, Option.some_bind, h2, Option.some_bind, h3, Option.some_bind, h4,
    Option.some_bind, h5, Option.some_bind, h6, Option.some_bind, h7]

theorem mapOpt_entries_jobj (freshId now : List Char) (es : List JVal)
    (h : es.all isObjB = true) :
    ∃ ys, mapOpt (normalizeEntry freshId now) es = some ys := by
  induction es with
  | nil => exact ⟨[], rfl⟩
  | cons e es ih =>
    have he : isObjB e = true := List.all_eq_true.mp h e (by simp)
    have hrest : es.all isObjB = true := by
      apply List.all_eq_true.mpr
      intro x hx
      exact List.all_eq_true.mp h x (List.mem_cons_of_mem _ hx)
    obtain ⟨ys, hys⟩ := ih hrest
    cases e with
    | jobj kvs =>
      obtain ⟨kvs2, hk⟩ := normalizeEntry_jobj freshId now kvs
      exact ⟨.jobj kvs2 :: ys, by simp [mapOpt, hk, hys]⟩
    | jnull => exact (Bool.false_ne_true he).elim
    | jbool b => exact (Bool.false_ne_true he).elim
    | jnum n => exact (Bool.false_ne_true he).elim
    | jstr s => exact (Bool.false_ne_true he).elim
    | jarr xs => exact (Bool.false_ne_true he).elim

/-- C4 (counterexample): the code's shape check is only `isinstance(dict)`
(line 471): a mapping whose category value is the number 42 — not a list of
record-shaped entries — raises a TypeError that the handler of line 505
reports as a generic import error, not the FormatError the claim requires; a
top-level list does produce the FormatError. -/
theorem c4_counterexample :
    runImportDoc ['i'] ['t'] (.jobj [(['c'], .jnum 42)]) = .error .exceptionError ∧
    isGoodShape (.jobj [(['c'], .jnum 42)]) = false ∧
    runImportDoc ['i'] ['t'] (.jarr [.jnum 1, .jnum 2, .jnum 3]) = .error .formatError ∧
    ImpErr.exceptionError ≠ ImpErr.formatError := by
  refine ⟨rfl, by decide, rfl, by decide⟩

theorem normalizeCatValue_jarr (freshId now : List Char) (xs : List JVal) :
    normalizeCatValue freshId now (.jarr xs) =
      (mapOpt (normalizeEntry freshId now) xs).map .jarr := rfl

theorem runImportDoc_jobj (freshId now : List Char) (cats : List (List Char × JVal)) :
    runImportDoc freshId now (.jobj cats) =
      (match mapOpt (fun kv =>
          (normalizeCatValue freshId now kv.2).map fun v => (kv.1, v)) cats with
        | some cats2 => .ok (.jobj cats2)
        | none => .error .exceptionError) := rfl

theorem mapOpt_cats_good (freshId now : List Char) :
    ∀ cats : List (List Char × JVal),
      (cats.all fun kv => isRecListB kv.2) = true →
      ∃ cats2, mapOpt (fun kv =>
        (normalizeCatValue freshId now kv.2).map fun v => (kv.1, v)) cats =
          some cats2 := by
  intro cats
  induction cats with
  | nil => intro _; exact ⟨[], rfl⟩
  | cons kv rest ih =>
    intro h
    have hkv : isRecListB kv.2 = true := List.all_eq_true.mp h kv (by simp)
    have hrest : (rest.all fun kv => isRecListB kv.2) = true := by
      apply List.all_eq_true.mpr
      intro x hx
      exact List.all_eq_true.mp h x (List.mem_cons_of_mem _ hx)
    obtain ⟨cats2, h2⟩ := ih hrest
    obtain ⟨k, v⟩ := kv
    simp only at hkv
    cases v with
    | jarr es =>
      obtain ⟨ys, hys⟩ := mapOpt_entries_jobj freshId now es hkv
      exact ⟨(k, .jarr ys) :: cats2,
        by simp [mapOpt, normalizeCatValue_jarr, hys, h2]⟩
    | jnull => exact (Bool.false_ne_true hkv).elim
    | jbool b => exact (Bool.false_ne_true hkv).elim
    | jnum n => exact (Bool.false_ne_true hkv).elim
    | jstr s => exact (Bool.false_ne_true hkv).elim
    | jobj kvs => exact (Bool.false_ne_true hkv).elim

/-- C4 (amended): import fails with FormatError exactly when the top level of
the document is not a mapping — in particular `import([1,2,3])` fails with
FormatError — whereas a mapping with malformed category values fails with a
generic caught-exception error or, in corner cases, succeeds; and whenever the
document is a mapping from category names to lists of record-shaped entries,
the import succeeds after back-filling missing fields with their defaults. -/
theorem c4_format_error :
    ∀ (freshId now : List Char) (doc : JVal),
      (runImportDoc freshId now doc = .error .formatError ↔
        ∀ cats, doc ≠ .jobj cats) ∧
      (isGoodShape doc = true → ∃ d, runImportDoc freshId now doc = .ok d) := by
  intro freshId now doc
  constructor
  · cases doc with
    | jobj cats =>
      constructor
      · intro h
        rw [runImportDoc_jobj] at h
        cases hm : mapOpt (fun kv =>
            (normalizeCatValue freshId now kv.2).map fun v => (kv.1, v)) cats with
        | none => rw [hm] at h; simp at h
        | some cats2 => rw [hm] at h; simp at h
      · intro h
        exact absurd rfl (h cats)
    | jnull => exact iff_of_true rfl (fun cats h => JVal.noConfusion h)
    | jbool b => exact iff_of_true rfl (fun cats h => JVal.noConfusion h)
    | jnum n => exact iff_of_true rfl (fun cats h => JVal.noConfusion h)
    | jstr s => exact iff_of_true rfl (fun cats h => JVal.noConfusion h)
    | jarr xs => exact iff_of_true rfl (fun cats h => JVal.noConfusion h)
  · intro hgood
    cases doc with
    | jobj cats =>
      have hall : (cats.all fun kv => isRecListB kv.2) = true := hgood
      obtain ⟨cats2, hm⟩ := mapOpt_cats_good freshId now cats hall
      exact ⟨.jobj cats2, by rw [runImportDoc_jobj, hm]⟩
    | jnull => exact (Bool.false_ne_true hgood).elim
    | jbool b => exact (Bool.false_ne_true hgood).elim
    | jnum n => exact (Bool.false_ne_true hgood).elim
    | jstr s => exact (Bool.false_ne_true hgood).elim
    | jarr xs => exact (Bool.false_ne_true hgood).elim

/-- Witness for the amended C4 at a well-shaped one-category document. -/
theorem c4_format_error_witness :
    (runImportDoc ['i'] ['t'] (.jarr [.jnum 1, .jnum 2, .jnum 3]) = .error .formatError) ∧
    (∃ d, runImportDoc ['i'] ['t'] (.jobj [(['c'], .jarr [.jobj []])]) = .ok d) :=
  ⟨(c4_format_error ['i'] ['t'] (.jarr [.jnum 1, .jnum 2, .jnum 3])).1.mpr
      (fun cats h => by injection h),
   (c4_format_error ['i'] ['t'] (.jobj [(['c'], .jarr [.jobj []])])).2 (by decide)⟩

theorem runImportSession_error (freshId now : List Char) (sess : JSession)
    (doc : JVal) (e : ImpErr) (h : runImportDoc freshId now doc = .error e) :
    runImportSession freshId now sess doc = (sess, some e) := by
  unfold runImportSession
  rw [h]

theorem runImportSession_ok (freshId now : List Char) (sess : JSession)
    (doc : JVal) (d : JVal) (h : runImportDoc freshId now doc = .ok d) :
    runImportSession freshId now sess doc = applyTagPhase sess d := by
  unfold runImportSession
  rw [h]

/-- C5 (counterexample): importing the mapping that sends `c` to the single
entry whose tags field is the number 42 fails — `all_tags.update(42)` raises a
TypeError in the tag loop — yet the store has already been replaced by the
assignment of line 491, so after the failed call the store differs from its
prior (empty) value: replacement is not all-or-nothing. -/
theorem c5_counterexample :
    (runImportSession ['i'] ['t'] ⟨.jobj [], []⟩ c5Doc).2 = some .exceptionError ∧
    (runImportSession ['i'] ['t'] ⟨.jobj [], []⟩ c5Doc).1.prompts =
      .jobj [(['c'], .jarr [c5Entry])] ∧
    JVal.jobj [(['c'], .jarr [c5Entry])] ≠ JVal.jobj [] := by
  refine ⟨rfl, rfl, by simp⟩

/-- C5 (amended): when import fails before the store assignment — with the
FormatError of a non-mapping top level, or an exception raised while
normalizing entries — the session (store and tag list) is left fully
unchanged; but when the failure is an exception raised in the tag-index
recomputation, which runs after the assignment of line 491, the store has
already been replaced and only the old tag list survives, so the replacement
is not all-or-nothing in general. -/
theorem c5_import_atomicity :
    ∀ (freshId now : List Char) (sess : JSession) (doc : JVal) (e : ImpErr)
      (d : JVal),
      (runImportDoc freshId now doc = .error e →
        runImportSession freshId now sess doc = (sess, some e)) ∧
      (runImportDoc freshId now doc = .ok d →
        collectTagsDoc d = none →
        runImportSession freshId now sess doc =
          (⟨d, sess.all_tags⟩, some .exceptionError)) := by
  intro freshId now sess doc e d
  constructor
  · intro h
    exact runImportSession_error freshId now sess doc e h
  · intro h hc
    rw [runImportSession_ok freshId now sess doc d h]
    unfold applyTagPhase
    rw [hc]

/-- Witness for the amended C5: a failing format check leaves the session
untouched, and the tag-phase failure on `c5Doc` keeps the old tag list next to
the replaced store. -/
theorem c5_import_atomicity_witness :
    runImportSession ['i'] ['t'] ⟨.jobj [], []⟩ (.jarr [.jnum 1, .jnum 2, .jnum 3]) =
      (⟨.jobj [], []⟩, some .formatError) ∧
    runImportSession ['i'] ['t'] ⟨.jobj [], [.jstr ['x']]⟩ c5Doc =
      (⟨.jobj [(['c'], .jarr [c5Entry])], [.jstr ['x']]⟩, some .exceptionError) :=
  ⟨(c5_import_atomicity ['i'] ['t'] ⟨.jobj [], []⟩ (.jarr [.jnum 1, .jnum 2, .jnum 3])
      .formatError .jnull).1 rfl,
   (c5_import_atomicity ['i'] ['t'] ⟨.jobj [], [.jstr ['x']]⟩ c5Doc .formatError
      (.jobj [(['c'], .jarr [c5Entry])])).2 rfl rfl⟩

/-- C8 (counterexample): importing the mapping that sends `c` to the empty
list succeeds — the shape check passes and there is nothing to normalize — and
installs a store in which category `c` is mapped to an empty list, so a state
with an empty category is reachable by a store operation (import), from any
prior state, since import wholesale-replaces the store. -/
theorem c8_counterexample :
    runImportSession ['i'] ['t'] ⟨.jobj [], []⟩ (.jobj [(['c'], .jarr [])]) =
      (⟨.jobj [(['c'], .jarr [])], []⟩, none) ∧
    hasEmptyCategory (.jobj [(['c'], .jarr [])]) = true := by
  refine ⟨rfl, by decide⟩

/-! ### Round-trip of export followed by import -/

theorem normalizeEntry_recToJson (freshId now : List Char) (r : Record) :
    normalizeEntry freshId now (recToJson r) = some (recToJson r) := rfl

theorem mapOpt_recToJson (freshId now : List Char) (recs : List Record) :
    mapOpt (normalizeEntry freshId now) (recs.map recToJson) =
      some (recs.map recToJson) := by
  induction recs with
  | nil => rfl
  | cons r rs ih => simp [mapOpt, normalizeEntry_recToJson, ih]

theorem runImportDoc_export (freshId now : List Char) (s : Store) :
    runImportDoc freshId now (exportStore s) = .ok (exportStore s) := by
  have hmap : ∀ cats : Store, mapOpt (fun kv =>
      (normalizeCatValue freshId now kv.2).map fun v => (kv.1, v))
      (cats.map fun kv => (kv.1, JVal.jarr (kv.2.map recToJson))) =
      some (cats.map fun kv => (kv.1, JVal.jarr (kv.2.map recToJson))) := by
    intro cats
    induction cats with
    | nil => rfl
    | cons kv rest ih =>
      simp [mapOpt, normalizeCatValue_jarr, mapOpt_recToJson, ih]
  show runImportDoc freshId now
      (.jobj (s.map fun kv => (kv.1, JVal.jarr (kv.2.map recToJson)))) = _
  rw [runImportDoc_jobj, hmap s]
  rfl

theorem setUpdate_jarr (acc : List JVal) (xs : List JVal) :
    setUpdate acc (.jarr xs) =
      (if xs.all jHashable = true then some (xs.foldl setInsert acc) else none) := rfl

theorem collectEntryTags_recToJson (acc : List JVal) (r : Record) :
    collectEntryTags acc (recToJson r) =
      some ((r.tags.map JVal.jstr).foldl setInsert acc) := by
  have h1 : pyContains ("tags").toList (recToJson r) = some true := rfl
  have h2 : pyGetTags (recToJson r) = some (.jarr (r.tags.map .jstr)) := rfl
  have hall : (r.tags.map JVal.jstr).all jHashable = true := by
    apply List.all_eq_true.mpr
    intro x hx
    obtain ⟨y, -, rfl⟩ := List.mem_map.mp hx
    rfl
  unfold collectEntryTags
  rw [h1]
  show (pyGetTags (recToJson r)).bind (setUpdate acc) = _
  rw [h2, Option.some_bind, setUpdate_jarr, if_pos hall]

theorem foldEntryTags_recToJson (recs : List Record) :
    ∀ acc, ∃ acc2, foldEntryTags acc (recs.map recToJson) = some acc2 := by
  induction recs with
  | nil => intro acc; exact ⟨acc, rfl⟩
  | cons r rs ih =>
    intro acc
    obtain ⟨acc2, h2⟩ := ih ((r.tags.map JVal.jstr).foldl setInsert acc)
    refine ⟨acc2, ?_⟩
    simp [foldEntryTags, collectEntryTags_recToJson, h2]

theorem collectTagsCats_export (s : Store) :
    ∀ acc, ∃ tags, collectTagsCats acc
      (s.map fun kv => (kv.1, JVal.jarr (kv.2.map recToJson))) = some tags := by
  induction s with
  | nil => intro acc; exact ⟨acc, rfl⟩
  | cons kv rest ih =>
    intro acc
    obtain ⟨acc2, h2⟩ := foldEntryTags_recToJson kv.2 acc
    obtain ⟨tags, h3⟩ := ih acc2
    refine ⟨tags, ?_⟩
    simp [collectTagsCats, collectCatTags, pyIterate, h2, h3]

theorem jstr_injective : Function.Injective JVal.jstr := by
  intro a b h
  injection h

theorem recToJson_inj : ∀ r1 r2 : Record, recToJson r1 = recToJson r2 → r1 = r2 := by
  intro r1 r2 h
  cases r1
  cases r2
  simp only [recToJson, JVal.jobj.injEq, List.cons.injEq, Prod.mk.injEq, JVal.jstr.injEq,
    JVal.jarr.injEq, JVal.jnum.injEq, JVal.jbool.injEq, and_true, true_and,
    Nat.cast_inj] at h
  obtain ⟨hid, hname, hdesc, hprom, htags, hca, hua, hver, hfav, husa⟩ := h
  have htags2 := List.map_injective_iff.mpr jstr_injective htags
  simp_all

theorem exportStore_inj : ∀ s t : Store, exportStore s = exportStore t → s = t := by
  intro s t h
  have hf : Function.Injective
      (fun kv : List Char × List Record => (kv.1, JVal.jarr (kv.2.map recToJson))) := by
    intro kv1 kv2 hh
    simp only [Prod.mk.injEq, JVal.jarr.injEq] at hh
    have h2 := List.map_injective_iff.mpr recToJson_inj hh.2
    obtain ⟨k1, v1⟩ := kv1
    obtain ⟨k2, v2⟩ := kv2
    simp only at hh h2
    simp [hh.1, h2]
  simp only [exportStore, JVal.jobj.injEq] at h
  exact List.map_injective_iff.mpr hf h

/-- C6: importing the document produced by the store's own export succeeds —
no entry is missing a field, so normalization changes nothing and the exact
exported document is reinstalled as the store, with a recomputed tag list —
and export is injective, so the resulting store is equal to the original:
the same category keys, the same number of records per category, and every
record equal field by field. -/
theorem c6_import_export_roundtrip :
    ∀ (freshId now : List Char) (sess : JSession) (s : Store),
      runImportDoc freshId now (exportStore s) = .ok (exportStore s) ∧
      (∃ tags, runImportSession freshId now sess (exportStore s) =
        (⟨exportStore s, tags⟩, none)) ∧
      (∀ t : Store, exportStore t = exportStore s → t = s) := by
  intro freshId now sess s
  refine ⟨runImportDoc_export freshId now s, ?_, fun t ht => exportStore_inj t s ht⟩
  obtain ⟨tags, htags⟩ := collectTagsCats_export s []
  refine ⟨tags, ?_⟩
  rw [runImportSession_ok freshId now sess (exportStore s) (exportStore s)
    (runImportDoc_export freshId now s)]
  unfold applyTagPhase
  have hdoc : collectTagsDoc (exportStore s) = some tags := htags
  rw [hdoc]

/-- Witness for C6 at the one-record store. -/
theorem c6_import_export_roundtrip_witness :
    runImportDoc ['i'] ['t'] (exportStore witStore) = .ok (exportStore witStore) ∧
    witStore = witStore :=
  ⟨(c6_import_export_roundtrip ['i'] ['t'] ⟨.jobj [], []⟩ witStore).1,
   (c6_import_export_roundtrip ['i'] ['t'] ⟨.jobj [], []⟩ witStore).2.2 witStore rfl⟩
